import Mathlib

/-!
Shallow embedding of the calendar month-grid / appointment-status logic and the
patient-roster grouping of the SwasthyaMitra doctor screens
(`app/(doctor)/calendar.tsx`), together with theorems about them.

Conventions of the embedding:
* JavaScript `Date` values constructed by `new Date(year, month, day)` are
  modelled by `mkJSDate`, following the ECMAScript `MakeDay` normalisation for
  the argument shapes actually used by the source (`day ∈ {0, 1}`, month in
  `0..12`): month overflow rolls into the year, and day `0` denotes the last
  day of the previous month, whose length is the Gregorian month length of
  ECMAScript `DaysInMonth`.
* `Date.prototype.getDay` (weekday, 0 = Sunday) is modelled by a
  days-since-epoch computation (`daysFromCivil`, 1970-01-01 ↦ 0, a Thursday).
* Strings coming from the database are kept as `String`; the `status` column,
  which the row may lack at runtime, is `Option String`.
* Timestamps (`created_at`, parsed by `new Date(...).getTime()`) are modelled
  by their epoch value, an `Int`.
* React state read from closures (`appointments`, `currentDate`) is passed as
  explicit arguments; presentation-only concerns (styles, selection highlight,
  keys) are omitted from the cell data.
-/

/-- Gregorian leap-year test, as in ECMAScript `DaysInYear`. -/
def isLeapYear (y : Int) : Bool :=
  (y % 4 == 0 && y % 100 != 0) || y % 400 == 0

/-- Length of zero-based month `m` of year `y` (ECMAScript `DaysInMonth`). -/
def monthLength (y : Int) (m : Nat) : Nat :=
  match m with
  | 0 => 31
  | 1 => if isLeapYear y then 29 else 28
  | 2 => 31
  | 3 => 30
  | 4 => 31
  | 5 => 30
  | 6 => 31
  | 7 => 31
  | 8 => 30
  | 9 => 31
  | 10 => 30
  | _ => 31

/-- Calendar date held by a JavaScript `Date`: year, zero-based month `0..11`,
one-based day. -/
structure JSDate where
  year : Int
  month : Nat
  day : Nat
  deriving Repr, DecidableEq

/-- Model of `new Date(y, m, d)` for nonnegative month `m` (possibly ≥ 12) and
day `d ∈ {0} ∪ [1, monthLength]`, the only shapes the source uses: the month
is normalised into the year, and day `0` rolls back to the last day of the
previous month (ECMAScript `MakeDay`). -/
def mkJSDate (y : Int) (m : Nat) (d : Nat) : JSDate :=
  let y1 : Int := y + (m / 12 : Nat)
  let m1 : Nat := m % 12
  if d = 0 then
    if m1 = 0 then ⟨y1 - 1, 11, monthLength (y1 - 1) 11⟩
    else ⟨y1, m1 - 1, monthLength y1 (m1 - 1)⟩
  else ⟨y1, m1, d⟩

/-- Days since 1970-01-01 of the civil date (`y`, one-based month `m1`, day
`d`), the standard era-based computation over the proleptic Gregorian
calendar. -/
def daysFromCivil (y : Int) (m1 : Nat) (d : Nat) : Int :=
  let yAdj : Int := if m1 ≤ 2 then y - 1 else y
  let era : Int := yAdj.fdiv 400
  let yoe : Int := yAdj - era * 400
  let mp : Nat := (m1 + 9) % 12
  let doy : Int := ((153 * mp + 2) / 5 : Nat) + (d : Int) - 1
  let doe : Int := yoe * 365 + yoe.fdiv 4 - yoe.fdiv 100 + doy
  era * 146097 + doe - 719468

/-- Model of `Date.prototype.getDay`: weekday index, 0 = Sunday
(1970-01-01 was a Thursday, index 4). -/
def jsGetDay (dt : JSDate) : Nat :=
  (((daysFromCivil dt.year (dt.month + 1) dt.day + 4) % 7 + 7) % 7).toNat

/-- Source `getDaysInMonth`: `new Date(year, month + 1, 0).getDate()`, with the
`Date` argument split into its year and zero-based month fields. -/
def getDaysInMonth (y : Int) (m : Nat) : Nat :=
  (mkJSDate y (m + 1) 0).day

/-- Source `getFirstDayOfMonth`: `new Date(year, month, 1).getDay()`. -/
def getFirstDayOfMonth (y : Int) (m : Nat) : Nat :=
  jsGetDay (mkJSDate y m 1)

/-- Model of `String(n).padStart(2, "0")` for a decimal numeral (never empty,
so at most one zero digit is prepended). -/
def padStart2 (s : String) : String :=
  if s.length < 2 then "0" ++ s else s

/-- Source `formatDate`: builds the `YYYY-MM-DD` key from the year, the
zero-based month and the day. -/
def formatDate (year : Int) (month : Nat) (day : Nat) : String :=
  toString year ++ "-" ++ padStart2 (toString (month + 1)) ++ "-" ++ padStart2 (toString day)

/-- Appointment record as the screen holds it after formatting the query rows.
Fields not consulted by the embedded logic other than as opaque data are kept
so that "changing fields other than status" is expressible; `status` is
`Option String` because the raw row value is an arbitrary string that may be
absent. -/
structure Appointment where
  id : String
  date : String
  patientName : String
  time : String
  condition : String
  status : Option String
  deriving Repr, DecidableEq

/-- Source `getAppointmentsForDate`: filters the fetched appointments by exact
date-key equality. -/
def getAppointmentsForDate (appointments : List Appointment) (dateString : String) :
    List Appointment :=
  appointments.filter (fun apt => apt.date == dateString)

/-- Source `hasAppointment`: `getAppointmentsForDate(dateString).length > 0`. -/
def hasAppointment (appointments : List Appointment) (dateString : String) : Bool :=
  decide ((getAppointmentsForDate appointments dateString).length > 0)

/-- Body of source `getAppointmentStatus` applied to the appointments of one
day: `null` for an empty day, otherwise the mixed / completed / scheduled /
cancelled precedence over the two `some`-scans. -/
def aggregateStatuses (dayAppointments : List Appointment) : Option String :=
  if dayAppointments.length = 0 then none
  else
    let hasCompleted := dayAppointments.any (fun apt => apt.status == some "completed")
    let hasScheduled := dayAppointments.any
      (fun apt => apt.status == some "scheduled" || apt.status == some "confirmed")
    if hasCompleted && hasScheduled then some "mixed"
    else if hasCompleted then some "completed"
    else if hasScheduled then some "scheduled"
    else some "cancelled"

/-- Source `getAppointmentStatus`: the lookup for the day fed to the aggregation
body. -/
def getAppointmentStatus (appointments : List Appointment) (dateString : String) :
    Option String :=
  aggregateStatuses (getAppointmentsForDate appointments dateString)

/-- One slot of the month grid: blank padding or a numbered day carrying the
data the renderer consumes (`hasApt`, composite status). -/
inductive CalendarCell where
  | Empty : CalendarCell
  | Day : Nat → Bool → Option String → CalendarCell
  deriving Repr, DecidableEq

/-- Day number of a cell, `none` for padding. -/
def cellDayNumber : CalendarCell → Option Nat
  | CalendarCell.Empty => none
  | CalendarCell.Day d _ _ => some d

/-- Cell sequence built by source `renderCalendar`: `firstDayOfMonth` empty
cells, then one `Day` cell per day `1..daysInMonth`, each with its
`hasAppointment` flag and composite status for the formatted date key. -/
def renderCalendar (y : Int) (m : Nat) (appointments : List Appointment) :
    List CalendarCell :=
  let daysInMonth := getDaysInMonth y m
  let firstDayOfMonth := getFirstDayOfMonth y m
  List.replicate firstDayOfMonth CalendarCell.Empty ++
    (List.range daysInMonth).map (fun i =>
      let day := i + 1
      let dateString := formatDate y m day
      CalendarCell.Day day (hasAppointment appointments dateString)
        (getAppointmentStatus appointments dateString))

/-- Source `upcomingAppointments`: appointments whose parsed local-midnight
date is on or after the midnight of today, truncated to the first 10.
`dateVal` models `s ↦ new Date(s + "T00:00:00").getTime()` and
`todayMidnight` models `new Date(new Date().toDateString()).getTime()`. -/
def upcomingAppointments (dateVal : String → Int) (todayMidnight : Int)
    (appointments : List Appointment) : List Appointment :=
  (appointments.filter (fun apt => decide (todayMidnight ≤ dateVal apt.date))).take 10

/-- Joined `users` row carried by a prescription query result. -/
structure PrescriptionUser where
  name : String
  avatar : Option String
  deriving Repr, DecidableEq

/-- Prescription row as fetched in `fetchPatientsWithPrescriptions`;
`created_at` is the timestamp modelled by its epoch value. -/
structure Prescription where
  id : String
  patient_id : String
  created_at : Int
  medicines : List String
  instructions : Option String
  status : Option String
  users : PrescriptionUser
  deriving Repr, DecidableEq

/-- History entry pushed onto the record of a patient for one prescription. -/
structure HistoryEntry where
  id : String
  date : Int
  type : String
  description : String
  diagnosis : String
  prescription : List String
  notes : String
  deriving Repr, DecidableEq

/-- Patient entry of the roster built by the screen. -/
structure Patient where
  id : String
  name : String
  age : Nat
  condition : String
  lastVisit : Int
  avatar : String
  history : List HistoryEntry
  deriving Repr, DecidableEq

/-- History entry built from a prescription inside the `forEach` of
`fetchPatientsWithPrescriptions`. -/
def toHistoryEntry (p : Prescription) : HistoryEntry :=
  { id := p.id
    date := p.created_at
    type := "Prescription"
    description := p.instructions.getD ""
    diagnosis := ""
    prescription := p.medicines
    notes := "" }

/-- Fresh `patientMap` entry created when a `patient_id` is first seen; the
history starts empty and is filled by the subsequent push. -/
def newPatient (p : Prescription) : Patient :=
  { id := p.patient_id
    name := p.users.name
    age := 20
    condition := ""
    lastVisit := p.created_at
    avatar := p.users.avatar.getD "https://images.pexels.com/photos/1681010/pexels-photo-1681010.jpeg"
    history := [] }

/-- Push of the history entry of one prescription onto the map entry of its
patient, leaving other patients unchanged. -/
def pushEntry (p : Prescription) (pat : Patient) : Patient :=
  if pat.id == p.patient_id then
    { pat with history := pat.history ++ [toHistoryEntry p] }
  else pat

/-- One `forEach` iteration over `patientMap`, modelled as an
insertion-ordered list of patients (JavaScript object with string keys):
create the entry if the patient is new, then push the history entry. -/
def addPrescription (acc : List Patient) (p : Prescription) : List Patient :=
  let acc1 :=
    if acc.any (fun pat => pat.id == p.patient_id) then acc
    else acc ++ [newPatient p]
  acc1.map (pushEntry p)

/-- Model of `history.sort((a, b) => dateB - dateA)`: sorted by the
descending-date comparator (`Array.prototype.sort` with a consistent
comparator yields a list sorted by it). -/
def sortHistoryDesc (history : List HistoryEntry) : List HistoryEntry :=
  List.insertionSort (fun a b => b.date ≤ a.date) history

/-- Pure core of source `fetchPatientsWithPrescriptions`: group the fetched
prescriptions by `patient_id` into `patientMap`, then sort the history of
each patient by descending date. -/
def fetchPatientsWithPrescriptions (prescriptions : List Prescription) : List Patient :=
  let patientMap := prescriptions.foldl addPrescription []
  patientMap.map (fun pat => { pat with history := sortHistoryDesc pat.history })

/-! Spec-side definitions, used to state the theorems in the words of the
specification and compared against the embedded source functions. -/

/-- Zero-padding to two digits as the specification words it: one leading zero
for a single-digit number, the plain numeral otherwise. -/
def pad2 (n : Nat) : String :=
  if n < 10 then "0" ++ toString n else toString n

/-- Collapse of an unrecognized or absent status to `cancelled`, the notion
the error-handling section of the specification describes as the defensive
fallback. -/
def collapseStatus (a : Appointment) : Appointment :=
  if a.status = some "scheduled" ∨ a.status = some "confirmed" ∨
      a.status = some "completed" ∨ a.status = some "cancelled" then a
  else { a with status := some "cancelled" }

/-! Concrete appointment records used by the witness theorems. -/

def aptC : Appointment := ⟨"a1", "2025-01-05", "P", "9:00 AM", "Cough", some "completed"⟩

def aptS : Appointment := ⟨"a2", "2025-01-05", "Q", "10:00 AM", "Cold", some "scheduled"⟩

def aptS2 : Appointment := ⟨"b7", "2025-03-02", "Z", "4:00 PM", "Checkup", some "scheduled"⟩

def aptC2 : Appointment := ⟨"b8", "2025-03-02", "W", "5:00 PM", "Review", some "completed"⟩

def aptX : Appointment := ⟨"a3", "2025-01-06", "R", "11:00 AM", "Flu", some "garbled"⟩

/-! Helper lemmas shared by the claim theorems. -/

theorem list_any_map {α β : Type} (f : α → β) (p : β → Bool) :
    ∀ l : List α, (l.map f).any p = l.any (fun a => p (f a))
  | [] => rfl
  | _ :: xs => by simp [list_any_map f p xs]

theorem perm_any_eq {α : Type} (p : α → Bool) {l1 l2 : List α} (h : l1.Perm l2) :
    l1.any p = l2.any p := by
  apply Bool.eq_iff_iff.mpr
  simp only [List.any_eq_true]
  exact ⟨fun ⟨x, hx, hp⟩ => ⟨x, h.mem_iff.mp hx, hp⟩,
    fun ⟨x, hx, hp⟩ => ⟨x, h.mem_iff.mpr hx, hp⟩⟩

theorem pushEntry_id (p : Prescription) (pat : Patient) : (pushEntry p pat).id = pat.id := by
  unfold pushEntry
  split_ifs <;> rfl

theorem map_id_pushEntry (p : Prescription) (acc : List Patient) :
    (acc.map (pushEntry p)).map (fun pat => pat.id) = acc.map (fun pat => pat.id) := by
  induction acc with
  | nil => rfl
  | cons x xs ih => simp [ih, pushEntry_id]

theorem map_pushEntry_of_absent (p : Prescription) (acc : List Patient)
    (hall : ∀ pat ∈ acc, (pat.id == p.patient_id) = false) :
    acc.map (pushEntry p) = acc := by
  induction acc with
  | nil => rfl
  | cons x xs ih =>
    simp only [List.map_cons]
    rw [show pushEntry p x = x by unfold pushEntry; rw [hall x (by simp)]; simp]
    rw [ih (fun pat hp => hall pat (by simp [hp]))]

theorem filter_eq_nil_of_absent (pid : String) (l : List Prescription)
    (h : pid ∉ l.map (fun p => p.patient_id)) :
    l.filter (fun p => p.patient_id == pid) = [] := by
  rw [List.filter_eq_nil]
  intro p hp
  simp only [beq_iff_eq]
  intro he
  exact h (by simp only [List.mem_map]; exact ⟨p, hp, he⟩)

/-- Invariant of the grouping fold: the ids in the map are distinct, they are
exactly the patient ids of the prescriptions processed so far, and the history
of each entry is the ordered image of the prescriptions of that patient
processed so far. -/
def GroupInv (done : List Prescription) (acc : List Patient) : Prop :=
  (acc.map (fun pat => pat.id)).Nodup ∧
  (∀ pid, pid ∈ acc.map (fun pat => pat.id) ↔ pid ∈ done.map (fun p => p.patient_id)) ∧
  (∀ pat ∈ acc, pat.history = (done.filter (fun p => p.patient_id == pat.id)).map toHistoryEntry)

theorem groupInv_nil : GroupInv [] [] := by
  refine ⟨List.nodup_nil, ?_, ?_⟩ <;> simp

theorem groupInv_step (done : List Prescription) (acc : List Patient) (p : Prescription)
    (h : GroupInv done acc) : GroupInv (done ++ [p]) (addPrescription acc p) := by
  obtain ⟨hnd, hmem, hhist⟩ := h
  unfold addPrescription
  by_cases hc : acc.any (fun pat => pat.id == p.patient_id)
  · -- the patient already has a map entry
    rw [if_pos hc]
    have hpid : p.patient_id ∈ acc.map (fun pat => pat.id) := by
      rcases List.any_eq_true.mp hc with ⟨pat, hpat, hbeq⟩
      exact List.mem_map.mpr ⟨pat, hpat, beq_iff_eq.mp hbeq⟩
    refine ⟨?_, ?_, ?_⟩
    · rw [map_id_pushEntry]
      exact hnd
    · intro pid
      rw [map_id_pushEntry]
      simp only [List.map_append, List.mem_append, List.map_cons, List.map_nil,
        List.mem_singleton]
      constructor
      · intro hin
        exact Or.inl ((hmem pid).mp hin)
      · rintro (hin | rfl)
        · exact (hmem pid).mpr hin
        · exact hpid
    · intro pat2 hpat2
      rcases List.mem_map.mp hpat2 with ⟨pat, hpat, rfl⟩
      rw [List.filter_append]
      unfold pushEntry
      by_cases he : pat.id == p.patient_id
      · rw [if_pos he]
        have hpe : p.patient_id = pat.id := (beq_iff_eq.mp he).symm
        simp only [List.filter_cons, List.filter_nil]
        rw [if_pos (by simp [hpe])]
        simp [hhist pat hpat]
      · rw [if_neg he]
        have hpe : ¬(p.patient_id == pat.id) := by
          simp only [beq_iff_eq] at he ⊢
          exact fun x => he x.symm
        simp only [List.filter_cons, List.filter_nil]
        rw [if_neg (by simpa using hpe)]
        simp [hhist pat hpat]
  · -- the patient is new and is appended at the end of the map
    rw [if_neg hc]
    have habs : ∀ pat ∈ acc, (pat.id == p.patient_id) = false := by
      intro pat hpat
      by_contra hne
      exact hc (List.any_eq_true.mpr ⟨pat, hpat, by simpa using hne⟩)
    have hnotin : p.patient_id ∉ acc.map (fun pat => pat.id) := by
      intro hin
      rcases List.mem_map.mp hin with ⟨pat, hpat, hid⟩
      have := habs pat hpat
      rw [hid] at this
      simp at this
    have hnotdone : p.patient_id ∉ done.map (fun q => q.patient_id) := by
      intro hin
      exact hnotin ((hmem p.patient_id).mpr hin)
    rw [List.map_append]
    rw [map_pushEntry_of_absent p acc habs]
    have hnew : pushEntry p (newPatient p) =
        { newPatient p with history := [toHistoryEntry p] } := by
      unfold pushEntry newPatient
      simp
    refine ⟨?_, ?_, ?_⟩
    · simp only [List.map_append, List.map_cons, List.map_nil, hnew]
      rw [List.nodup_append]
      refine ⟨hnd, List.nodup_singleton _, ?_⟩
      intro x hx
      simp only [newPatient, List.mem_singleton]
      intro hx2
      rw [hx2] at hx
      exact hnotin hx
    · intro pid
      simp only [List.map_append, List.mem_append, List.map_cons, List.map_nil,
        List.mem_singleton, hnew]
      constructor
      · rintro (hin | hid)
        · exact Or.inl ((hmem pid).mp hin)
        · simp only [newPatient] at hid
          exact Or.inr hid
      · rintro (hin | rfl)
        · exact Or.inl ((hmem pid).mpr hin)
        · exact Or.inr (by simp [newPatient])
    · intro pat2 hpat2
      rcases List.mem_append.mp hpat2 with hold | hnew2
      · have hpe : ¬(p.patient_id == pat2.id) = true := by
          have := habs pat2 hold
          simp only [beq_iff_eq] at this ⊢
          intro x
          rw [x] at this
          simp at this
        rw [List.filter_append]
        simp only [List.filter_cons, List.filter_nil]
        rw [if_neg hpe]
        simp [hhist pat2 hold]
      · simp only [List.map_cons, List.map_nil, List.mem_singleton] at hnew2
        subst hnew2
        rw [List.filter_append]
        have hid : (pushEntry p (newPatient p)).id = p.patient_id := by
          rw [pushEntry_id]
          rfl
        have hhistnew : (pushEntry p (newPatient p)).history = [toHistoryEntry p] := by
          unfold pushEntry newPatient
          simp
        rw [hid, hhistnew, filter_eq_nil_of_absent _ _ hnotdone]
        simp [List.filter_cons]

theorem groupInv_fold :
    ∀ (ps done : List Prescription) (acc : List Patient),
      GroupInv done acc → GroupInv (done ++ ps) (ps.foldl addPrescription acc)
  | [], done, acc, h => by simpa using h
  | p :: ps, done, acc, h => by
    have h1 := groupInv_step done acc p h
    have h2 := groupInv_fold ps (done ++ [p]) (addPrescription acc p) h1
    simpa [List.append_assoc] using h2

instance : IsTotal HistoryEntry (fun a b => b.date ≤ a.date) :=
  ⟨fun a b => le_total b.date a.date⟩

instance : IsTrans HistoryEntry (fun a b => b.date ≤ a.date) :=
  ⟨fun _ _ _ h1 h2 => le_trans h2 h1⟩

/-- C1: for every non-empty sequence of appointments on one calendar day, the
status aggregator returns, in this order of evaluation, `mixed` when the set
holds at least one `completed` and at least one of `scheduled`/`confirmed`;
else `completed` when it holds at least one `completed`; else `scheduled`
when it holds at least one of `scheduled`/`confirmed`; else `cancelled`. -/
theorem aggregateStatuses_precedence (l : List Appointment) (h : l ≠ []) :
    aggregateStatuses l = some (
      if (∃ a ∈ l, a.status = some "completed") ∧
          (∃ a ∈ l, a.status = some "scheduled" ∨ a.status = some "confirmed") then "mixed"
      else if ∃ a ∈ l, a.status = some "completed" then "completed"
      else if ∃ a ∈ l, a.status = some "scheduled" ∨ a.status = some "confirmed" then "scheduled"
      else "cancelled") := by
  unfold aggregateStatuses
  rw [if_neg (by simpa [List.length_eq_zero] using h)]
  by_cases hc : ∃ a ∈ l, a.status = some "completed" <;>
    by_cases hs : ∃ a ∈ l, a.status = some "scheduled" ∨ a.status = some "confirmed" <;>
      simp [hc, hs, List.any_eq_true]

/-- Witness for C1: a day holding one `completed` and one `scheduled`
appointment aggregates to `mixed`. -/
theorem aggregateStatuses_precedence_witness :
    [aptC, aptS] ≠ ([] : List Appointment) ∧
      aggregateStatuses [aptC, aptS] = some "mixed" := by
  constructor
  · decide
  · have h := aggregateStatuses_precedence [aptC, aptS] (by decide)
    rw [h]
    decide

/-- C2: a day whose appointment lookup is empty has composite status `none`
and `hasAppointment` false; a day with at least one appointment has
`hasAppointment` true. -/
theorem emptyDay_none_hasAppointment (apts : List Appointment) (ds : String) :
    (getAppointmentStatus apts ds = none ↔ getAppointmentsForDate apts ds = []) ∧
    hasAppointment apts ds = !(getAppointmentsForDate apts ds).isEmpty := by
  constructor
  · unfold getAppointmentStatus aggregateStatuses
    split_ifs <;> simp_all [List.length_eq_zero] <;> split_ifs <;> simp
  · unfold hasAppointment
    generalize getAppointmentsForDate apts ds = l
    cases l <;> simp

/-- C3: for every year and zero-based month index `0..11` the day count
computed as day `0` of the next month equals the Gregorian month length,
leap years included, with December handled by the same technique. -/
theorem getDaysInMonth_gregorian (y : Int) (m : Nat) (hm : m ≤ 11) :
    getDaysInMonth y m = monthLength y m := by
  interval_cases m <;> simp [getDaysInMonth, mkJSDate, monthLength]

/-- Witness for C3: February has 29 days in 2024 and 28 in 2023. -/
theorem getDaysInMonth_gregorian_witness :
    (1 : Nat) ≤ 11 ∧ getDaysInMonth 2024 1 = 29 ∧ getDaysInMonth 2023 1 = 28 := by
  refine ⟨by decide, ?_, ?_⟩
  · have h := getDaysInMonth_gregorian 2024 1 (by decide)
    rw [h]
    decide
  · have h := getDaysInMonth_gregorian 2023 1 (by decide)
    rw [h]
    decide

/-- C4: the grid builder emits exactly `leadingBlanks + daysInMonth` cells,
where `leadingBlanks` is the weekday index (0 = Sunday) of the first day of
the month; the blanks precede the day cells, which are numbered `1` through
`daysInMonth` in increasing order. -/
theorem renderCalendar_grid_structure (y : Int) (m : Nat) (apts : List Appointment) :
    (renderCalendar y m apts).length = getFirstDayOfMonth y m + getDaysInMonth y m ∧
    (renderCalendar y m apts).take (getFirstDayOfMonth y m) =
      List.replicate (getFirstDayOfMonth y m) CalendarCell.Empty ∧
    ((renderCalendar y m apts).drop (getFirstDayOfMonth y m)).map cellDayNumber =
      (List.range (getDaysInMonth y m)).map (fun i => some (i + 1)) := by
  have hrc : renderCalendar y m apts =
      List.replicate (getFirstDayOfMonth y m) CalendarCell.Empty ++
        (List.range (getDaysInMonth y m)).map (fun i =>
          CalendarCell.Day (i + 1) (hasAppointment apts (formatDate y m (i + 1)))
            (getAppointmentStatus apts (formatDate y m (i + 1)))) := rfl
  rw [hrc]
  refine ⟨?_, ?_, ?_⟩
  · simp
  · exact List.take_left' (by simp)
  · rw [List.drop_left' (by simp)]
    simp [List.map_map, cellDayNumber, Function.comp_def]

/-- C5: the date key is `YYYY-MM-DD` with the one-based month and the day
zero-padded to two digits, and the per-day lookup returns exactly the
appointments whose `date` field equals that key. -/
theorem formatDate_key_and_lookup (y : Int) (m d : Nat) (apts : List Appointment)
    (a : Appointment) (hm : m ≤ 11) (hd1 : 1 ≤ d) (hd : d ≤ 31) :
    (formatDate y m d = toString y ++ "-" ++ pad2 (m + 1) ++ "-" ++ pad2 d ∧
      (pad2 (m + 1)).length = 2 ∧ (pad2 d).length = 2) ∧
    (a ∈ getAppointmentsForDate apts (formatDate y m d) ↔
      a ∈ apts ∧ a.date = formatDate y m d) := by
  have key : ∀ n : Nat, n < 100 →
      (padStart2 (toString n) = pad2 n ∧ (1 ≤ n → (pad2 n).length = 2)) := by decide
  refine ⟨⟨?_, ?_, ?_⟩, ?_⟩
  · unfold formatDate
    rw [(key (m + 1) (by omega)).1, (key d (by omega)).1]
  · exact (key (m + 1) (by omega)).2 (by omega)
  · exact (key d (by omega)).2 hd1
  · simp [getAppointmentsForDate, List.mem_filter]

/-- Witness for C5: the key for 2025, month index 0, day 5 is `2025-01-05`,
and the lookup at that key finds the matching appointment. -/
theorem formatDate_key_and_lookup_witness :
    ((0 : Nat) ≤ 11 ∧ (1 : Nat) ≤ 5 ∧ (5 : Nat) ≤ 31) ∧
    formatDate 2025 0 5 = "2025-01-05" ∧
    aptC ∈ getAppointmentsForDate [aptC, aptX] (formatDate 2025 0 5) := by
  have h := formatDate_key_and_lookup 2025 0 5 [aptC, aptX] aptC (by decide) (by decide)
    (by decide)
  refine ⟨⟨by decide, by decide, by decide⟩, ?_, ?_⟩
  · rw [h.1.1]
    decide
  · exact h.2.mpr ⟨by decide, by decide⟩

/-- C6: the composite status of a day depends only on the multiset of
individual statuses: permuting the appointments of the day or changing
fields other than `status` never changes the result of the aggregator. -/
theorem aggregateStatuses_multiset_invariant (l1 l2 : List Appointment)
    (h : (l1.map (fun a => a.status)).Perm (l2.map (fun a => a.status))) :
    aggregateStatuses l1 = aggregateStatuses l2 := by
  have hlen : l1.length = l2.length := by simpa using h.length_eq
  have h1 : (l1.any fun a => a.status == some "completed") =
      (l2.any fun a => a.status == some "completed") := by
    have := perm_any_eq (fun s => s == some "completed") h
    rw [list_any_map, list_any_map] at this
    exact this
  have h2 : (l1.any fun a => a.status == some "scheduled" || a.status == some "confirmed") =
      (l2.any fun a => a.status == some "scheduled" || a.status == some "confirmed") := by
    have := perm_any_eq (fun s => s == some "scheduled" || s == some "confirmed") h
    rw [list_any_map, list_any_map] at this
    exact this
  unfold aggregateStatuses
  rw [hlen, h1, h2]

/-- Witness for C6: two days carrying the same statuses as each other, in
swapped order and with every other field different, aggregate equally. -/
theorem aggregateStatuses_multiset_invariant_witness :
    (([aptC, aptS].map (fun a => a.status)).Perm ([aptS2, aptC2].map (fun a => a.status))) ∧
    aggregateStatuses [aptC, aptS] = aggregateStatuses [aptS2, aptC2] :=
  ⟨by decide, aggregateStatuses_multiset_invariant [aptC, aptS] [aptS2, aptC2] (by decide)⟩

/-- C7: the grid builder is a pure function of year, month and appointments:
two invocations on identical inputs yield structurally identical cell
sequences, with no hidden incremental state. -/
theorem renderCalendar_deterministic (y1 y2 : Int) (m1 m2 : Nat)
    (a1 a2 : List Appointment) (hy : y1 = y2) (hm : m1 = m2) (ha : a1 = a2) :
    renderCalendar y1 m1 a1 = renderCalendar y2 m2 a2 := by
  subst hy
  subst hm
  subst ha
  rfl

/-- Witness for C7: a repeated invocation on one concrete input. -/
theorem renderCalendar_deterministic_witness :
    renderCalendar 2025 9 [aptC] = renderCalendar 2025 9 [aptC] :=
  renderCalendar_deterministic 2025 2025 9 9 [aptC] [aptC] rfl rfl rfl

/-- C8: the aggregator cannot fail: on every non-empty day it returns one of
the four composite statuses, and replacing every unrecognized or absent
status by `cancelled` leaves its result unchanged (the unrecognized values
collapse to the `cancelled` fallback). -/
theorem aggregateStatuses_total_fallback (l : List Appointment) (h : l ≠ []) :
    (aggregateStatuses l = some "mixed" ∨ aggregateStatuses l = some "completed" ∨
      aggregateStatuses l = some "scheduled" ∨ aggregateStatuses l = some "cancelled") ∧
    aggregateStatuses (l.map collapseStatus) = aggregateStatuses l := by
  constructor
  · unfold aggregateStatuses
    rw [if_neg (by simpa [List.length_eq_zero] using h)]
    cases hc : l.any fun apt => apt.status == some "completed" <;>
      cases hs : l.any fun apt => apt.status == some "scheduled" || apt.status == some "confirmed" <;>
        simp [hc, hs]
  · have hpt1 : ∀ a : Appointment,
        ((collapseStatus a).status == some "completed") = (a.status == some "completed") := by
      intro a
      unfold collapseStatus
      split_ifs with hr
      · rfl
      · push_neg at hr
        simp [beq_iff_eq, hr.2.2.1]
    have hpt2 : ∀ a : Appointment,
        ((collapseStatus a).status == some "scheduled" ||
          (collapseStatus a).status == some "confirmed") =
        (a.status == some "scheduled" || a.status == some "confirmed") := by
      intro a
      unfold collapseStatus
      split_ifs with hr
      · rfl
      · push_neg at hr
        simp [beq_iff_eq, hr.1, hr.2.1]
    unfold aggregateStatuses
    rw [List.length_map]
    have e1 : ((l.map collapseStatus).any fun a => a.status == some "completed") =
        (l.any fun a => a.status == some "completed") := by
      rw [list_any_map]
      congr 1
      funext a
      exact hpt1 a
    have e2 : ((l.map collapseStatus).any fun a =>
          a.status == some "scheduled" || a.status == some "confirmed") =
        (l.any fun a => a.status == some "scheduled" || a.status == some "confirmed") := by
      rw [list_any_map]
      congr 1
      funext a
      exact hpt2 a
    rw [e1, e2]

/-- Witness for C8: a day whose only appointment carries an unrecognized
status value aggregates to one of the four statuses, and collapsing that
status to `cancelled` changes nothing. -/
theorem aggregateStatuses_total_fallback_witness :
    [aptX] ≠ ([] : List Appointment) ∧
    ((aggregateStatuses [aptX] = some "mixed" ∨ aggregateStatuses [aptX] = some "completed" ∨
      aggregateStatuses [aptX] = some "scheduled" ∨ aggregateStatuses [aptX] = some "cancelled") ∧
    aggregateStatuses ([aptX].map collapseStatus) = aggregateStatuses [aptX]) :=
  ⟨by decide, aggregateStatuses_total_fallback [aptX] (by decide)⟩

/-- C9: the roster aggregation groups prescriptions into one patient entry
per distinct `patient_id`, the history of each patient holds one entry per
prescription of that patient, and every history list is sorted by descending
date. -/
theorem fetchPatients_grouping_sorted (ps : List Prescription) :
    ((fetchPatientsWithPrescriptions ps).map (fun pat => pat.id)).Nodup ∧
    (∀ pid, pid ∈ (fetchPatientsWithPrescriptions ps).map (fun pat => pat.id) ↔
      pid ∈ ps.map (fun p => p.patient_id)) ∧
    (∀ pat2 ∈ fetchPatientsWithPrescriptions ps,
      pat2.history.Perm ((ps.filter (fun p => p.patient_id == pat2.id)).map toHistoryEntry) ∧
      pat2.history.Sorted (fun a b => b.date ≤ a.date)) := by
  have hinv := groupInv_fold ps [] [] groupInv_nil
  rw [List.nil_append] at hinv
  obtain ⟨hnd, hmem, hhist⟩ := hinv
  unfold fetchPatientsWithPrescriptions
  have hids : (((ps.foldl addPrescription []).map
        (fun pat => { pat with history := sortHistoryDesc pat.history })).map
        (fun pat => pat.id)) =
      (ps.foldl addPrescription []).map (fun pat => pat.id) := by
    rw [List.map_map]
    rfl
  refine ⟨?_, ?_, ?_⟩
  · rw [hids]
    exact hnd
  · intro pid
    rw [hids]
    exact hmem pid
  · intro pat2 hpat2
    rcases List.mem_map.mp hpat2 with ⟨pat, hpat, rfl⟩
    constructor
    · show (sortHistoryDesc pat.history).Perm
        ((ps.filter (fun p => p.patient_id == pat.id)).map toHistoryEntry)
      rw [← hhist pat hpat]
      exact List.perm_insertionSort _ _
    · show (sortHistoryDesc pat.history).Sorted (fun a b => b.date ≤ a.date)
      exact List.sorted_insertionSort _ _

/-- C10: the derived upcoming-appointments list holds at most 10 elements,
each of whose parsed date is on or after the midnight of the current day, and
it is a sublist of the input, so the relative input order is preserved. -/
theorem upcomingAppointments_bounded_ordered (dateVal : String → Int) (today : Int)
    (apts : List Appointment) :
    (upcomingAppointments dateVal today apts).length ≤ 10 ∧
    (∀ a ∈ upcomingAppointments dateVal today apts, today ≤ dateVal a.date) ∧
    (upcomingAppointments dateVal today apts).Sublist apts := by
  refine ⟨?_, ?_, ?_⟩
  · exact List.length_take_le _ _
  · intro a ha
    have h1 : a ∈ apts.filter (fun apt => decide (today ≤ dateVal apt.date)) :=
      List.take_subset _ _ ha
    have h2 := List.of_mem_filter h1
    simpa using h2
  · exact (List.take_sublist _ _).trans (List.filter_sublist _)
